import Mathlib

/-!
Verification development for the schema-driven Anchor-IDL account decoder
(`AccountDataTool`): the IDL data model, the recursive-descent byte decoder
(`decodeType` / `decodeStruct` / `decodeEnum` and the primitive readers), the
discriminator engine (`anchorDiscriminatorForAccount`), and the account
resolvers (`parseAccountWithIdl`, `parseAccountAutoOrSelected`,
`getAccountStructFields`).

Buffers are modelled as `List Nat` (one entry per byte of the `Uint8Array`).
`DataView` reads that would run past the end of the buffer throw a
`RangeError` in the source; here they return `Except.error .rangeError`.
JavaScript `TypedArray.slice`, which clamps to the available range instead of
throwing, is modelled by `sliceBytes`.  The decoder's recursion is bounded by
an explicit fuel parameter; exhausting it yields the artificial error
`.outOfFuel`, and every theorem quantifies over (or instantiates) the fuel.
-/

namespace DevTools

/-- The `IdlType` union of the source: primitive type names plus the four
composite object forms `vec`, `option`, `array`, `defined`. -/
inductive IdlType where
  | u8 | i8 | u16 | i16 | u32 | i32 | u64 | i64
  | bool
  | string
  | publicKey
  | bytes
  | vec (elem : IdlType)
  | option (inner : IdlType)
  | array (elem : IdlType) (len : Nat)
  | defined (name : String)
deriving DecidableEq, Repr

/-- One named struct field: an entry of a `fields` array in the IDL. -/
structure IdlField where
  name : String
  type : IdlType
deriving DecidableEq, Repr

/-- One element of the flat-array form of an enum variant's `fields`: at
runtime it is either a plain `name`/`type` object or a bare `IdlType`
(a string such as `u8`, or an object with a `vec`/`option`/`array`/`defined`
key). -/
inductive FlatElem where
  | named (name : String) (type : IdlType)
  | bare (type : IdlType)
deriving DecidableEq, Repr

/-- The `fields` union of `IdlEnumVariant`: a flat JS array (of named fields
or of bare types), or a tagged `kind: struct` object, or a tagged
`kind: tuple` object. -/
inductive EnumFields where
  | flat (elems : List FlatElem)
  | kindStruct (fields : List IdlField)
  | kindTuple (types : List IdlType)
deriving DecidableEq, Repr

/-- An enum variant: its name and its optional `fields` payload description. -/
structure IdlEnumVariant where
  name : String
  fields : Option EnumFields
deriving DecidableEq, Repr

/-- The body of an entry of the IDL's `types` array: a struct of fields or an
enum of variants. -/
inductive TypeDefKind where
  | struct (fields : List IdlField)
  | enum (variants : List IdlEnumVariant)
deriving DecidableEq, Repr

/-- A named entry of the IDL's `types` array. -/
structure IdlTypeDef where
  name : String
  type : TypeDefKind
deriving DecidableEq, Repr

/-- The `type` of an `accounts` entry: an inline struct or a reference to a
separately named type. -/
inductive AccountType where
  | struct (fields : List IdlField)
  | defined (name : String)
deriving DecidableEq, Repr

/-- A named entry of the IDL's `accounts` array; `type` is optional in the
source's `Idl` shape. -/
structure IdlAccount where
  name : String
  type : Option AccountType
deriving DecidableEq, Repr

/-- The IDL document.  The source declares `accounts` and `types` as optional
arrays; an absent array behaves exactly like an empty one under every
`?.find` / length test the source performs, so both are modelled as lists. -/
structure Idl where
  accounts : List IdlAccount
  types : List IdlTypeDef
deriving DecidableEq, Repr

/-- Decoded output values.  `str` carries strings the source builds itself
(decimal renderings of 64-bit integers, hex renderings of byte blobs);
`text` stands for the `TextDecoder.decode` of the given bytes, and
`pubkeyOf` for `new PublicKey(bs).toBase58()` — both are opaque platform
conversions, represented by their input bytes.  `tagged` is the source's
enum result object carrying `tag`, `name` and (when a payload was decoded)
`value`. -/
inductive Value where
  | num (n : Int)
  | str (s : String)
  | text (bs : List Nat)
  | pubkeyOf (bs : List Nat)
  | bool (b : Bool)
  | null
  | arr (elems : List Value)
  | obj (fields : List (String × Value))
  | tagged (tag : Nat) (name : String) (payload : Option Value)

/-- Errors a decode can surface: `rangeError` is the `RangeError` a
`DataView` accessor throws past the end of the buffer; `typeError` is the
`TypeError` raised when the named-field loop of `decodeEnum` meets an element
with no `type` property; `outOfFuel` is the artificial recursion bound of
this embedding. -/
inductive DecodeErr where
  | rangeError
  | typeError
  | outOfFuel
deriving DecidableEq, Repr

/-- Little-endian value of a byte list (first byte is least significant), as
read by the `DataView.getUint*` family with `littleEndian = true`. -/
def leBytes : List Nat → Nat
  | [] => 0
  | b :: rest => b + 256 * leBytes rest

/-- Models `bytes.slice(start, stop)` on a `Uint8Array`: the elements with
indices in `[start, stop)`, clamped to the available range (never an error). -/
def sliceBytes (bytes : List Nat) (start stop : Nat) : List Nat :=
  (bytes.take stop).drop start

/-- Shared model of the fixed-width `DataView` reads (`readU8` … `readU64`
read `width` bytes little-endian): out-of-bounds access throws `RangeError`,
otherwise the value and the advanced offset are returned, exactly as each
`read*` helper of the source returns `[value, offset + width]`. -/
def readUIntLE (bytes : List Nat) (offset width : Nat) :
    Except DecodeErr (Nat × Nat) :=
  if offset + width ≤ bytes.length then
    .ok (leBytes (sliceBytes bytes offset (offset + width)), offset + width)
  else
    .error .rangeError

/-- Two's-complement reinterpretation used by the signed reads
(`getInt8` / `getInt16` / `getInt32` / `getBigInt64`): `width` is in bytes. -/
def toSigned (width v : Nat) : Int :=
  if v < 2 ^ (8 * width - 1) then (v : Int) else (v : Int) - 2 ^ (8 * width)

/-- Models `b.toString(16).padStart(2, "0")` from `toHex`, for one byte. -/
def jsHexByte (b : Nat) : String :=
  let ds := Nat.toDigits 16 b
  ⟨List.replicate (2 - ds.length) '0' ++ ds⟩

/-- Models `toHex`: concatenation of the two-digit hex renderings. -/
def toHex (bs : List Nat) : String :=
  String.join (bs.map jsHexByte)

/-- Coercion applied by `Uint8Array.from(arr as number[])` in the `bytes`
case of `decodeType`: each element of the decoded `u8` vector is already a
byte-sized number; non-numbers would coerce to `0`. -/
def valAsByte : Value → Nat
  | .num n => (n.emod 256).toNat
  | _ => 0

/-- Models `resolveDefined` of the source: look the name up in the IDL's
`types` array. -/
def resolveDefined (idl : Idl) (name : String) : Option TypeDefKind :=
  (idl.types.find? (fun t => t.name == name)).map (fun t => t.type)

/-- The guard of the flat-array branch of `decodeEnum`:
`fields.length > 0 && typeof fields[0] === "object"` and the first element
carries none of the keys `vec`, `option`, `array`, `defined`.  A plain
named-field object passes; a bare type never does (a primitive type is a
string, and a composite type object carries one of the four keys). -/
def flatElemIsNamedObject : FlatElem → Bool
  | .named _ _ => true
  | .bare (.vec _) => false
  | .bare (.option _) => false
  | .bare (.array _ _) => false
  | .bare (.defined _) => false
  | .bare _ => false

/-- The whole condition on the flat `fields` array of `decodeEnum`,
including the `fields.length > 0` conjunct. -/
def flatLooksNamed : List FlatElem → Bool
  | [] => false
  | e :: _ => flatElemIsNamedObject e

/-- A pending decode request.  The source's decoder is a family of mutually
recursive functions; here each loop of that family is one request
constructor: `one` is `decodeType`, `fields` the loop of `decodeStruct`,
`rep` the element loops of `readVec` / `readArray`, `enumV` is `decodeEnum`,
`flatNamed` / `flatTuple` / `tuple` the three payload loops inside
`decodeEnum`. -/
inductive Req where
  | one (t : IdlType)
  | fields (fs : List IdlField)
  | tuple (ts : List IdlType)
  | rep (t : IdlType) (count : Nat)
  | flatNamed (es : List FlatElem)
  | flatTuple (es : List FlatElem)
  | enumV (variants : List IdlEnumVariant)

/-- Result type of each request: single values for `one` / `enumV`, a
named-field record (association list, insertion order) for the struct-like
loops, a positional list for the others. -/
def ReqRes : Req → Type
  | .one _ => Value
  | .enumV _ => Value
  | .fields _ => List (String × Value)
  | .flatNamed _ => List (String × Value)
  | .tuple _ => List Value
  | .rep _ _ => List Value
  | .flatTuple _ => List Value

/-- The recursive-descent decoder of the source (`decodeType`,
`decodeStruct`, `decodeEnum`, `readVec`, `readArray`, `readString`,
`readBool` and the fixed-width reads), as one fuel-bounded function over
requests.  Every mutual call of the source decrements the fuel once. -/
def decodeReq : (fuel : Nat) → List Nat → Nat → (req : Req) → Idl →
    Except DecodeErr (ReqRes req × Nat)
  | 0, _, _, _, _ => .error .outOfFuel
  | _ + 1, bytes, offset, .one .u8, _ => do
    let (v, n) ← readUIntLE bytes offset 1
    return (.num (Int.ofNat v), n)
  | _ + 1, bytes, offset, .one .i8, _ => do
    let (v, n) ← readUIntLE bytes offset 1
    return (.num (toSigned 1 v), n)
  | _ + 1, bytes, offset, .one .u16, _ => do
    let (v, n) ← readUIntLE bytes offset 2
    return (.num (Int.ofNat v), n)
  | _ + 1, bytes, offset, .one .i16, _ => do
    let (v, n) ← readUIntLE bytes offset 2
    return (.num (toSigned 2 v), n)
  | _ + 1, bytes, offset, .one .u32, _ => do
    let (v, n) ← readUIntLE bytes offset 4
    return (.num (Int.ofNat v), n)
  | _ + 1, bytes, offset, .one .i32, _ => do
    let (v, n) ← readUIntLE bytes offset 4
    return (.num (toSigned 4 v), n)
  | _ + 1, bytes, offset, .one .u64, _ => do
    let (v, n) ← readUIntLE bytes offset 8
    return (.str (toString v), n)
  | _ + 1, bytes, offset, .one .i64, _ => do
    let (v, n) ← readUIntLE bytes offset 8
    return (.str (toString (toSigned 8 v)), n)
  | _ + 1, bytes, offset, .one .bool, _ => do
    let (v, n) ← readUIntLE bytes offset 1
    return (.bool (v != 0), n)
  | _ + 1, bytes, offset, .one .string, _ => do
    let (len, no) ← readUIntLE bytes offset 4
    return (.text (sliceBytes bytes no (no + len)), no + len)
  | _ + 1, bytes, offset, .one .publicKey, _ =>
    .ok (.pubkeyOf (sliceBytes bytes offset (offset + 32)), offset + 32)
  | fuel + 1, bytes, offset, .one .bytes, idl => do
    let (len, no) ← readUIntLE bytes offset 4
    let (l, n) ← decodeReq fuel bytes no (.rep .u8 len) idl
    return (.str ("0x" ++ toHex (l.map valAsByte)), n)
  | fuel + 1, bytes, offset, .one (.vec t), idl => do
    let (len, no) ← readUIntLE bytes offset 4
    let (l, n) ← decodeReq fuel bytes no (.rep t len) idl
    return (.arr l, n)
  | fuel + 1, bytes, offset, .one (.option t), idl => do
    let (has, no) ← readUIntLE bytes offset 1
    if has == 0 then return (.null, no)
    else decodeReq fuel bytes no (.one t) idl
  | fuel + 1, bytes, offset, .one (.array t len), idl =>  do
    let (l, n) ← decodeReq fuel bytes offset (.rep t len) idl
    return (.arr l, n)
  | fuel + 1, bytes, offset, .one (.defined name), idl =>
    match resolveDefined idl name with
    | none => .ok (.null, offset)
    | some (.struct fs) => do
      let (l, n) ← decodeReq fuel bytes offset (.fields fs) idl
      return (.obj l, n)
    | some (.enum vs) => decodeReq fuel bytes offset (.enumV vs) idl
  | _ + 1, _, offset, .fields [], _ => .ok ([], offset)
  | fuel + 1, bytes, offset, .fields (f :: fs), idl => do
    let (v, n) ← decodeReq fuel bytes offset (.one f.type) idl
    let (l, n') ← decodeReq fuel bytes n (.fields fs) idl
    return ((f.name, v) :: l, n')
  | _ + 1, _, offset, .tuple [], _ => .ok ([], offset)
  | fuel + 1, bytes, offset, .tuple (t :: ts), idl => do
    let (v, n) ← decodeReq fuel bytes offset (.one t) idl
    let (l, n') ← decodeReq fuel bytes n (.tuple ts) idl
    return (v :: l, n')
  | _ + 1, _, offset, .rep _ 0, _ => .ok ([], offset)
  | fuel + 1, bytes, offset, .rep t (count + 1), idl => do
    let (v, n) ← decodeReq fuel bytes offset (.one t) idl
    let (l, n') ← decodeReq fuel bytes n (.rep t count) idl
    return (v :: l, n')
  | _ + 1, _, offset, .flatNamed [], _ => .ok ([], offset)
  | fuel + 1, bytes, offset, .flatNamed (.named nm t :: es), idl => do
    let (v, n) ← decodeReq fuel bytes offset (.one t) idl
    let (l, n') ← decodeReq fuel bytes n (.flatNamed es) idl
    return ((nm, v) :: l, n')
  | _ + 1, _, _, .flatNamed (.bare _ :: _), _ =>
    .error .typeError
  | _ + 1, _, offset, .flatTuple [], _ => .ok ([], offset)
  | fuel + 1, bytes, offset, .flatTuple (.bare t :: es), idl => do
    let (v, n) ← decodeReq fuel bytes offset (.one t) idl
    let (l, n') ← decodeReq fuel bytes n (.flatTuple es) idl
    return (v :: l, n')
  | fuel + 1, bytes, offset, .flatTuple (.named _ _ :: es), idl => do
    let (l, n') ← decodeReq fuel bytes offset (.flatTuple es) idl
    return (.null :: l, n')
  | fuel + 1, bytes, offset, .enumV variants, idl => do
    let (tag, no) ← readUIntLE bytes offset 1
    match variants[tag]? with
    | none => return (.tagged tag "Unknown" none, no)
    | some variant =>
      match variant.fields with
      | none => return (.tagged tag variant.name none, no)
      | some (.flat elems) =>
        if flatLooksNamed elems then do
          let (l, n) ← decodeReq fuel bytes no (.flatNamed elems) idl
          return (.tagged tag variant.name (some (.obj l)), n)
        else do
          let (l, n) ← decodeReq fuel bytes no (.flatTuple elems) idl
          return (.tagged tag variant.name (some (.arr l)), n)
      | some (.kindStruct fs) => do
        let (l, n) ← decodeReq fuel bytes no (.fields fs) idl
        return (.tagged tag variant.name (some (.obj l)), n)
      | some (.kindTuple ts) => do
        let (l, n) ← decodeReq fuel bytes no (.tuple ts) idl
        return (.tagged tag variant.name (some (.arr l)), n)

/-- The source's `decodeType`. -/
def decodeType (fuel : Nat) (bytes : List Nat) (offset : Nat) (t : IdlType)
    (idl : Idl) : Except DecodeErr (Value × Nat) :=
  decodeReq fuel bytes offset (.one t) idl

/-- The source's `decodeStruct`: the ordered named-field record and the
final cursor. -/
def decodeStruct (fuel : Nat) (bytes : List Nat) (offset : Nat)
    (fields : List IdlField) (idl : Idl) :
    Except DecodeErr (List (String × Value) × Nat) :=
  decodeReq fuel bytes offset (.fields fields) idl

/-- The source's `decodeEnum`. -/
def decodeEnum (fuel : Nat) (bytes : List Nat) (offset : Nat)
    (variants : List IdlEnumVariant) (idl : Idl) :
    Except DecodeErr (Value × Nat) :=
  decodeReq fuel bytes offset (.enumV variants) idl

/-- Truncation to 32 bits, applied after every word operation of SHA-256. -/
def w32 (n : Nat) : Nat := n % 4294967296

/-- Right rotation of a 32-bit word by `k` bits. -/
def rotr32 (k x : Nat) : Nat := (x >>> k) ||| w32 (x <<< (32 - k))

/-- The `Ch` function of SHA-256 (complement taken within 32 bits). -/
def shaCh (e f g : Nat) : Nat := (e &&& f) ^^^ ((e ^^^ 4294967295) &&& g)

/-- The `Maj` function of SHA-256. -/
def shaMaj (a b c : Nat) : Nat := (a &&& b) ^^^ (a &&& c) ^^^ (b &&& c)

/-- The big sigma-0 function of SHA-256. -/
def shaS0 (a : Nat) : Nat := rotr32 2 a ^^^ rotr32 13 a ^^^ rotr32 22 a

/-- The big sigma-1 function of SHA-256. -/
def shaS1 (e : Nat) : Nat := rotr32 6 e ^^^ rotr32 11 e ^^^ rotr32 25 e

/-- The small sigma-0 message-schedule function of SHA-256. -/
def shaLo0 (x : Nat) : Nat := rotr32 7 x ^^^ rotr32 18 x ^^^ (x >>> 3)

/-- The small sigma-1 message-schedule function of SHA-256. -/
def shaLo1 (x : Nat) : Nat := rotr32 17 x ^^^ rotr32 19 x ^^^ (x >>> 10)

/-- The 64 round constants of SHA-256. -/
def sha256K : List Nat :=
  [1116352408, 1899447441, 3049323471, 3921009573, 961987163,
   1508970993, 2453635748, 2870763221, 3624381080, 310598401,
   607225278, 1426881987, 1925078388, 2162078206, 2614888103,
   3248222580, 3835390401, 4022224774, 264347078, 604807628,
   770255983, 1249150122, 1555081692, 1996064986, 2554220882,
   2821834349, 2952996808, 3210313671, 3336571891, 3584528711,
   113926993, 338241895, 666307205, 773529912, 1294757372,
   1396182291, 1695183700, 1986661051, 2177026350, 2456956037,
   2730485921, 2820302411, 3259730800, 3345764771, 3516065817,
   3600352804, 4094571909, 275423344, 430227734, 506948616,
   659060556, 883997877, 958139571, 1322822218, 1537002063,
   1747873779, 1955562222, 2024104815, 2227730452, 2361852424,
   2428436474, 2756734187, 3204031479, 3329325298]

/-- The initial hash state of SHA-256. -/
def sha256H0 : List Nat :=
  [1779033703, 3144134277, 1013904242,
   2773480762, 1359893119, 2600822924,
   528734635, 1541459225]

/-- Extend a 16-word message block: append `k` further schedule words. -/
def shaSchedule (ws : List Nat) : Nat → List Nat
  | 0 => ws
  | k + 1 =>
    let i := ws.length
    let w := w32 (shaLo1 (ws.getD (i - 2) 0) + ws.getD (i - 7) 0 +
      shaLo0 (ws.getD (i - 15) 0) + ws.getD (i - 16) 0)
    shaSchedule (ws ++ [w]) k

/-- The eight working variables of the SHA-256 compression loop. -/
structure ShaState where
  a : Nat
  b : Nat
  c : Nat
  d : Nat
  e : Nat
  f : Nat
  g : Nat
  h : Nat

/-- One round of the SHA-256 compression function. -/
def shaRound (s : ShaState) (ki wi : Nat) : ShaState :=
  let t1 := w32 (s.h + shaS1 s.e + shaCh s.e s.f s.g + ki + wi)
  let t2 := w32 (shaS0 s.a + shaMaj s.a s.b s.c)
  ⟨w32 (t1 + t2), s.a, s.b, s.c, w32 (s.d + t1), s.e, s.f, s.g⟩

/-- Run the compression rounds over the constants and schedule words. -/
def shaRounds : ShaState → List Nat → List Nat → ShaState
  | s, k :: ks, wrd :: ws => shaRounds (shaRound s k wrd) ks ws
  | s, _, _ => s

/-- Big-endian 32-bit words of a byte list (four bytes each). -/
def bytesToWordsBE : List Nat → List Nat
  | b0 :: b1 :: b2 :: b3 :: rest =>
    (b0 * 16777216 + b1 * 65536 + b2 * 256 + b3) :: bytesToWordsBE rest
  | _ => []

/-- Compress one 64-byte block into the running 8-word hash state. -/
def shaCompressBlock (h : List Nat) (block : List Nat) : List Nat :=
  let ws := shaSchedule (bytesToWordsBE block) 48
  let s := shaRounds
    ⟨h.getD 0 0, h.getD 1 0, h.getD 2 0, h.getD 3 0,
     h.getD 4 0, h.getD 5 0, h.getD 6 0, h.getD 7 0⟩ sha256K ws
  [w32 (h.getD 0 0 + s.a), w32 (h.getD 1 0 + s.b), w32 (h.getD 2 0 + s.c),
   w32 (h.getD 3 0 + s.d), w32 (h.getD 4 0 + s.e), w32 (h.getD 5 0 + s.f),
   w32 (h.getD 6 0 + s.g), w32 (h.getD 7 0 + s.h)]

/-- Process `blocks` consecutive 64-byte blocks of `bytes`. -/
def shaProcess (h : List Nat) : Nat → List Nat → List Nat
  | 0, _ => h
  | k + 1, bytes => shaProcess (shaCompressBlock h (bytes.take 64)) k (bytes.drop 64)

/-- SHA-256 padding: `0x80`, zeros to 56 mod 64, then the bit length as
eight big-endian bytes. -/
def shaPad (msg : List Nat) : List Nat :=
  msg ++ [0x80] ++ List.replicate ((119 - msg.length % 64) % 64) 0 ++
    [((8 * msg.length) >>> 56) % 256, ((8 * msg.length) >>> 48) % 256,
     ((8 * msg.length) >>> 40) % 256, ((8 * msg.length) >>> 32) % 256,
     ((8 * msg.length) >>> 24) % 256, ((8 * msg.length) >>> 16) % 256,
     ((8 * msg.length) >>> 8) % 256, (8 * msg.length) % 256]

/-- SHA-256 digest as 32 bytes.  This models the platform primitive
`crypto.subtle.digest` with algorithm name `SHA-256` that the source's
`sha256` wrapper calls. -/
def sha256 (msg : List Nat) : List Nat :=
  let padded := shaPad msg
  (shaProcess sha256H0 (padded.length / 64) padded).flatMap
    (fun wrd => [(wrd >>> 24) % 256, (wrd >>> 16) % 256, (wrd >>> 8) % 256, wrd % 256])

/-- UTF-8 encoding of one character (the scalar-value cases of the
encoding). -/
def utf8EncodeChar (c : Char) : List Nat :=
  let n := c.toNat
  if n < 0x80 then [n]
  else if n < 0x800 then
    [0xC0 ||| (n >>> 6), 0x80 ||| (n &&& 0x3F)]
  else if n < 0x10000 then
    [0xE0 ||| (n >>> 12), 0x80 ||| ((n >>> 6) &&& 0x3F), 0x80 ||| (n &&& 0x3F)]
  else
    [0xF0 ||| (n >>> 18), 0x80 ||| ((n >>> 12) &&& 0x3F),
     0x80 ||| ((n >>> 6) &&& 0x3F), 0x80 ||| (n &&& 0x3F)]

/-- Models `new TextEncoder().encode(s)`: the UTF-8 bytes of the string. -/
def utf8Encode (s : String) : List Nat := s.data.flatMap utf8EncodeChar

/-- Models `target.set(src, pos)` on a `Uint8Array`: overwrite the entries
starting at `pos` with `src` (the source only calls it in range). -/
def uint8Set (target src : List Nat) (pos : Nat) : List Nat :=
  target.take pos ++ src ++ target.drop (pos + src.length)

/-- The source's `anchorDiscriminatorForAccount`: allocate a buffer of the
combined length, `set` the `account:` prefix at 0 and the name bytes after
it, hash, and keep the first 8 bytes. -/
def anchorDiscriminatorForAccount (name : String) : List Nat :=
  let pfx := utf8Encode "account:"
  let n := utf8Encode name
  let data := uint8Set (uint8Set (List.replicate (pfx.length + n.length) 0) pfx 0)
    n pfx.length
  (sha256 data).take 8

/-- Models `Array.from(d).every((v, i) => v === cmp[i])`: every element of
`d` equals the element of `cmp` at the same index; a missing element
(`undefined`) compares unequal to any number. -/
def everyMatches : List Nat → List Nat → Bool
  | [], _ => true
  | _ :: _, [] => false
  | v :: vs, c :: cs => v == c && everyMatches vs cs

/-- The `idl.types` fallback lookup at the end of `getAccountStructFields`. -/
def structFieldsFromTypes (idl : Idl) (name : String) :
    Option (List IdlField) :=
  match idl.types.find? (fun t => t.name == name) with
  | some td =>
    match td.type with
    | .struct fs => some fs
    | .enum _ => none
  | none => none

/-- The source's `getAccountStructFields`: inline struct fields of the
account entry, else the struct behind its `defined` reference, else a
same-named struct in `types`, else `null`. -/
def getAccountStructFields (idl : Idl) (name : String) :
    Option (List IdlField) :=
  match idl.accounts.find? (fun a => a.name == name) with
  | some ⟨_, some (.struct fields)⟩ => some fields
  | some ⟨_, some (.defined dname)⟩ =>
    (match resolveDefined idl dname with
     | some (.struct fields) => some fields
     | _ => structFieldsFromTypes idl name)
  | _ => structFieldsFromTypes idl name

/-- The candidate loop of `parseAccountWithIdl`, over the remaining
`accounts` entries in schema order. -/
def parseLoop (fuel : Nat) (bytes : List Nat) (idl : Idl) :
    List IdlAccount → Except DecodeErr (Option (String × List (String × Value)))
  | [] => .ok none
  | acc :: rest =>
    if everyMatches (anchorDiscriminatorForAccount acc.name) (sliceBytes bytes 0 8) then
      match getAccountStructFields idl acc.name with
      | none => parseLoop fuel bytes idl rest
      | some fields =>
        match decodeStruct fuel (bytes.drop 8) 0 fields idl with
        | .error e => .error e
        | .ok (obj, _) => .ok (some (acc.name, obj))
    else parseLoop fuel bytes idl rest

/-- The source's `parseAccountWithIdl` (auto-detect mode): `none` models the
`null` result (`NoMatch`); a decode that throws surfaces as `.error`. -/
def parseAccountWithIdl (fuel : Nat) (bytes : List Nat) (idl : Idl) :
    Except DecodeErr (Option (String × List (String × Value))) :=
  if idl.accounts.isEmpty then .ok none
  else parseLoop fuel bytes idl idl.accounts

/-- The source's `parseAccountAutoOrSelected`.  The `selected` argument is
the optional explicit account-type name; `if (selected)` in the source is
false both for `undefined` and for the empty string. -/
def parseAccountAutoOrSelected (fuel : Nat) (bytes : List Nat) (idl : Idl)
    (selected : Option String) :
    Except DecodeErr (Option (String × List (String × Value))) :=
  match selected with
  | none => parseAccountWithIdl fuel bytes idl
  | some sel =>
    if sel == "" then parseAccountWithIdl fuel bytes idl
    else
      match idl.accounts.find? (fun a => a.name == sel) with
      | none => .ok none
      | some acc =>
        let useOffset : Nat :=
          if 8 ≤ bytes.length then
            if everyMatches (anchorDiscriminatorForAccount acc.name) bytes then 8
            else 0
          else 0
        let body := bytes.drop useOffset
        match getAccountStructFields idl acc.name with
        | none => .ok none
        | some fields =>
          match decodeStruct fuel body 0 fields idl with
          | .error e => .error e
          | .ok (obj, _) => .ok (some (acc.name, obj))

/-! ## Helper lemmas -/

theorem except_bind_ok {ε α β : Type} (x : Except ε α) (f : α → Except ε β) (b : β) :
    (x >>= f = Except.ok b) ↔ ∃ a, x = Except.ok a ∧ f a = Except.ok b := by
  cases x <;> simp [Bind.bind, Except.bind]

theorem readUIntLE_ok {bytes : List Nat} {offset width v n : Nat}
    (h : readUIntLE bytes offset width = .ok (v, n)) :
    n = offset + width ∧ offset + width ≤ bytes.length := by
  unfold readUIntLE at h
  split at h
  · simp only [Except.ok.injEq, Prod.mk.injEq] at h
    exact ⟨h.2.symm, by assumption⟩
  · cases h

theorem shaCompressBlock_length (h block : List Nat) :
    (shaCompressBlock h block).length = 8 := rfl

theorem shaProcess_length (k : Nat) :
    ∀ (h bytes : List Nat), h.length = 8 → (shaProcess h k bytes).length = 8 := by
  induction k with
  | zero => intro h bytes hh; simpa [shaProcess] using hh
  | succ k ih =>
    intro h bytes hh
    simpa [shaProcess] using
      ih (shaCompressBlock h (bytes.take 64)) (bytes.drop 64)
        (shaCompressBlock_length _ _)

theorem flatMap_words_length : ∀ ws : List Nat,
    (ws.flatMap (fun wrd =>
      [(wrd >>> 24) % 256, (wrd >>> 16) % 256, (wrd >>> 8) % 256, wrd % 256])).length
      = 4 * ws.length := by
  intro ws
  induction ws with
  | nil => rfl
  | cons w ws ih => simp [List.flatMap_cons, ih]; ring

theorem sha256_length (msg : List Nat) : (sha256 msg).length = 32 := by
  have h8 := shaProcess_length ((shaPad msg).length / 64) sha256H0 (shaPad msg) rfl
  revert h8
  simp only [sha256]
  generalize shaProcess sha256H0 ((shaPad msg).length / 64) (shaPad msg) = ws
  intro h8
  rw [flatMap_words_length, h8]

theorem everyMatches_self : ∀ l : List Nat, everyMatches l l = true := by
  intro l; induction l with
  | nil => rfl
  | cons v vs ih => simp [everyMatches, ih]

theorem uint8Set_concat (pfx n : List Nat) :
    uint8Set (uint8Set (List.replicate (pfx.length + n.length) 0) pfx 0) n
      pfx.length = pfx ++ n := by
  simp [uint8Set, List.drop_replicate]

theorem anchorDiscriminatorForAccount_eq (name : String) :
    anchorDiscriminatorForAccount name =
      (sha256 (utf8Encode "account:" ++ utf8Encode name)).take 8 := by
  simp only [anchorDiscriminatorForAccount, uint8Set_concat]

theorem anchorDiscriminatorForAccount_length (name : String) :
    (anchorDiscriminatorForAccount name).length = 8 := by
  rw [anchorDiscriminatorForAccount_eq]
  simp [sha256_length]

/-- Cursor monotonicity of the decoder: a successful decode never moves the
cursor backwards, whatever the request. -/
theorem decodeReq_cursor_mono :
    ∀ (fuel : Nat) (bytes : List Nat) (offset : Nat) (req : Req) (idl : Idl)
      (res : ReqRes req) (n : Nat),
      decodeReq fuel bytes offset req idl = .ok (res, n) → offset ≤ n := by
  intro fuel
  induction fuel with
  | zero =>
    intro bytes offset req idl res n h
    simp [decodeReq] at h
  | succ fuel ih =>
    intro bytes offset req idl res n h
    cases req with
    | one t =>
      cases t with
      | u8 =>
        rcases (except_bind_ok _ _ _).mp h with ⟨⟨v, m⟩, hr, hp⟩
        simp only [Pure.pure, Except.pure, Except.ok.injEq, Prod.mk.injEq] at hp
        have := readUIntLE_ok hr
        omega
      | i8 =>
        rcases (except_bind_ok _ _ _).mp h with ⟨⟨v, m⟩, hr, hp⟩
        simp only [Pure.pure, Except.pure, Except.ok.injEq, Prod.mk.injEq] at hp
        have := readUIntLE_ok hr
        omega
      | u16 =>
        rcases (except_bind_ok _ _ _).mp h with ⟨⟨v, m⟩, hr, hp⟩
        simp only [Pure.pure, Except.pure, Except.ok.injEq, Prod.mk.injEq] at hp
        have := readUIntLE_ok hr
        omega
      | i16 =>
        rcases (except_bind_ok _ _ _).mp h with ⟨⟨v, m⟩, hr, hp⟩
        simp only [Pure.pure, Except.pure, Except.ok.injEq, Prod.mk.injEq] at hp
        have := readUIntLE_ok hr
        omega
      | u32 =>
        rcases (except_bind_ok _ _ _).mp h with ⟨⟨v, m⟩, hr, hp⟩
        simp only [Pure.pure, Except.pure, Except.ok.injEq, Prod.mk.injEq] at hp
        have := readUIntLE_ok hr
        omega
      | i32 =>
        rcases (except_bind_ok _ _ _).mp h with ⟨⟨v, m⟩, hr, hp⟩
        simp only [Pure.pure, Except.pure, Except.ok.injEq, Prod.mk.injEq] at hp
        have := readUIntLE_ok hr
        omega
      | u64 =>
        rcases (except_bind_ok _ _ _).mp h with ⟨⟨v, m⟩, hr, hp⟩
        simp only [Pure.pure, Except.pure, Except.ok.injEq, Prod.mk.injEq] at hp
        have := readUIntLE_ok hr
        omega
      | i64 =>
        rcases (except_bind_ok _ _ _).mp h with ⟨⟨v, m⟩, hr, hp⟩
        simp only [Pure.pure, Except.pure, Except.ok.injEq, Prod.mk.injEq] at hp
        have := readUIntLE_ok hr
        omega
      | bool =>
        rcases (except_bind_ok _ _ _).mp h with ⟨⟨v, m⟩, hr, hp⟩
        simp only [Pure.pure, Except.pure, Except.ok.injEq, Prod.mk.injEq] at hp
        have := readUIntLE_ok hr
        omega
      | string =>
        rcases (except_bind_ok _ _ _).mp h with ⟨⟨len, m⟩, hr, hp⟩
        simp only [Pure.pure, Except.pure, Except.ok.injEq, Prod.mk.injEq] at hp
        have := readUIntLE_ok hr
        omega
      | publicKey =>
        simp only [decodeReq, Except.ok.injEq, Prod.mk.injEq] at h
        omega
      | bytes =>
        rcases (except_bind_ok _ _ _).mp h with ⟨⟨len, m⟩, hr, hp⟩
        rcases (except_bind_ok _ _ _).mp hp with ⟨⟨l, m2⟩, hrec, hp2⟩
        simp only [Pure.pure, Except.pure, Except.ok.injEq, Prod.mk.injEq] at hp2
        have h1 := readUIntLE_ok hr
        have h2 := ih bytes m (.rep .u8 len) idl l m2 hrec
        omega
      | vec t =>
        rcases (except_bind_ok _ _ _).mp h with ⟨⟨len, m⟩, hr, hp⟩
        rcases (except_bind_ok _ _ _).mp hp with ⟨⟨l, m2⟩, hrec, hp2⟩
        simp only [Pure.pure, Except.pure, Except.ok.injEq, Prod.mk.injEq] at hp2
        have h1 := readUIntLE_ok hr
        have h2 := ih bytes m (.rep t len) idl l m2 hrec
        omega
      | option t =>
        rcases (except_bind_ok _ _ _).mp h with ⟨⟨has, m⟩, hr, hp⟩
        have h1 := readUIntLE_ok hr
        dsimp only at hp
        split at hp
        · simp only [Pure.pure, Except.pure, Except.ok.injEq, Prod.mk.injEq] at hp
          omega
        · have h2 := ih bytes m (.one t) idl res n hp
          omega
      | array t len =>
        rcases (except_bind_ok _ _ _).mp h with ⟨⟨l, m⟩, hrec, hp⟩
        simp only [Pure.pure, Except.pure, Except.ok.injEq, Prod.mk.injEq] at hp
        have h2 := ih bytes offset (.rep t len) idl l m hrec
        omega
      | defined name =>
        simp only [decodeReq] at h
        split at h
        · simp only [Except.ok.injEq, Prod.mk.injEq] at h
          omega
        · rcases (except_bind_ok _ _ _).mp h with ⟨⟨l, m⟩, hrec, hp⟩
          simp only [Pure.pure, Except.pure, Except.ok.injEq, Prod.mk.injEq] at hp
          have h2 := ih bytes offset (.fields _) idl l m hrec
          omega
        · exact ih bytes offset (.enumV _) idl res n h
    | fields fs =>
      cases fs with
      | nil =>
        simp only [decodeReq, Except.ok.injEq, Prod.mk.injEq] at h
        omega
      | cons f rest =>
        rcases (except_bind_ok _ _ _).mp h with ⟨⟨v, m⟩, h1, hp⟩
        rcases (except_bind_ok _ _ _).mp hp with ⟨⟨l, m2⟩, h2, hp2⟩
        simp only [Pure.pure, Except.pure, Except.ok.injEq, Prod.mk.injEq] at hp2
        have g1 := ih bytes offset (.one f.type) idl v m h1
        have g2 := ih bytes m (.fields rest) idl l m2 h2
        omega
    | tuple ts =>
      cases ts with
      | nil =>
        simp only [decodeReq, Except.ok.injEq, Prod.mk.injEq] at h
        omega
      | cons t rest =>
        rcases (except_bind_ok _ _ _).mp h with ⟨⟨v, m⟩, h1, hp⟩
        rcases (except_bind_ok _ _ _).mp hp with ⟨⟨l, m2⟩, h2, hp2⟩
        simp only [Pure.pure, Except.pure, Except.ok.injEq, Prod.mk.injEq] at hp2
        have g1 := ih bytes offset (.one t) idl v m h1
        have g2 := ih bytes m (.tuple rest) idl l m2 h2
        omega
    | rep t count =>
      cases count with
      | zero =>
        simp only [decodeReq, Except.ok.injEq, Prod.mk.injEq] at h
        omega
      | succ k =>
        rcases (except_bind_ok _ _ _).mp h with ⟨⟨v, m⟩, h1, hp⟩
        rcases (except_bind_ok _ _ _).mp hp with ⟨⟨l, m2⟩, h2, hp2⟩
        simp only [Pure.pure, Except.pure, Except.ok.injEq, Prod.mk.injEq] at hp2
        have g1 := ih bytes offset (.one t) idl v m h1
        have g2 := ih bytes m (.rep t k) idl l m2 h2
        omega
    | flatNamed es =>
      cases es with
      | nil =>
        simp only [decodeReq, Except.ok.injEq, Prod.mk.injEq] at h
        omega
      | cons e rest =>
        cases e with
        | named nm t =>
          rcases (except_bind_ok _ _ _).mp h with ⟨⟨v, m⟩, h1, hp⟩
          rcases (except_bind_ok _ _ _).mp hp with ⟨⟨l, m2⟩, h2, hp2⟩
          simp only [Pure.pure, Except.pure, Except.ok.injEq, Prod.mk.injEq] at hp2
          have g1 := ih bytes offset (.one t) idl v m h1
          have g2 := ih bytes m (.flatNamed rest) idl l m2 h2
          omega
        | bare t =>
          simp [decodeReq] at h
    | flatTuple es =>
      cases es with
      | nil =>
        simp only [decodeReq, Except.ok.injEq, Prod.mk.injEq] at h
        omega
      | cons e rest =>
        cases e with
        | bare t =>
          rcases (except_bind_ok _ _ _).mp h with ⟨⟨v, m⟩, h1, hp⟩
          rcases (except_bind_ok _ _ _).mp hp with ⟨⟨l, m2⟩, h2, hp2⟩
          simp only [Pure.pure, Except.pure, Except.ok.injEq, Prod.mk.injEq] at hp2
          have g1 := ih bytes offset (.one t) idl v m h1
          have g2 := ih bytes m (.flatTuple rest) idl l m2 h2
          omega
        | named nm t =>
          rcases (except_bind_ok _ _ _).mp h with ⟨⟨l, m⟩, h1, hp⟩
          simp only [Pure.pure, Except.pure, Except.ok.injEq, Prod.mk.injEq] at hp
          have g1 := ih bytes offset (.flatTuple rest) idl l m h1
          omega
    | enumV variants =>
      rcases (except_bind_ok _ _ _).mp h with ⟨⟨tag, m⟩, hr, hp⟩
      have h1 := readUIntLE_ok hr
      dsimp only at hp
      split at hp
      · simp only [Pure.pure, Except.pure, Except.ok.injEq, Prod.mk.injEq] at hp
        omega
      · split at hp
        · simp only [Pure.pure, Except.pure, Except.ok.injEq, Prod.mk.injEq] at hp
          omega
        · split at hp
          · rcases (except_bind_ok _ _ _).mp hp with ⟨⟨l, m2⟩, h2, hp2⟩
            simp only [Pure.pure, Except.pure, Except.ok.injEq, Prod.mk.injEq] at hp2
            have g2 := ih bytes m (.flatNamed _) idl l m2 h2
            omega
          · rcases (except_bind_ok _ _ _).mp hp with ⟨⟨l, m2⟩, h2, hp2⟩
            simp only [Pure.pure, Except.pure, Except.ok.injEq, Prod.mk.injEq] at hp2
            have g2 := ih bytes m (.flatTuple _) idl l m2 h2
            omega
        · rcases (except_bind_ok _ _ _).mp hp with ⟨⟨l, m2⟩, h2, hp2⟩
          simp only [Pure.pure, Except.pure, Except.ok.injEq, Prod.mk.injEq] at hp2
          have g2 := ih bytes m (.fields _) idl l m2 h2
          omega
        · rcases (except_bind_ok _ _ _).mp hp with ⟨⟨l, m2⟩, h2, hp2⟩
          simp only [Pure.pure, Except.pure, Except.ok.injEq, Prod.mk.injEq] at hp2
          have g2 := ih bytes m (.tuple _) idl l m2 h2
          omega

/-- A successful struct decode binds every declared field in order: the
result is never a partial structure. -/
theorem decodeStruct_complete :
    ∀ (fuel : Nat) (bytes : List Nat) (offset : Nat) (fs : List IdlField)
      (idl : Idl) (obj : List (String × Value)) (n : Nat),
      decodeStruct fuel bytes offset fs idl = .ok (obj, n) →
      obj.map Prod.fst = fs.map IdlField.name := by
  intro fuel
  induction fuel with
  | zero =>
    intro bytes offset fs idl obj n h
    simp [decodeStruct, decodeReq] at h
  | succ fuel ih =>
    intro bytes offset fs idl obj n h
    cases fs with
    | nil =>
      simp only [decodeStruct, decodeReq, Except.ok.injEq, Prod.mk.injEq] at h
      rw [← h.1]
      rfl
    | cons f rest =>
      simp only [decodeStruct] at h
      rcases (except_bind_ok _ _ _).mp h with ⟨⟨v, m⟩, h1, hp⟩
      rcases (except_bind_ok _ _ _).mp hp with ⟨⟨l, m2⟩, h2, hp2⟩
      simp only [Pure.pure, Except.pure, Except.ok.injEq, Prod.mk.injEq] at hp2
      rw [← hp2.1]
      simpa using ih bytes m rest idl l m2 h2

theorem parseLoop_cons_nomatch {fuel : Nat} {bytes : List Nat} {idl : Idl}
    {acc : IdlAccount} (rest : List IdlAccount)
    (h : everyMatches (anchorDiscriminatorForAccount acc.name)
      (sliceBytes bytes 0 8) = false) :
    parseLoop fuel bytes idl (acc :: rest) = parseLoop fuel bytes idl rest := by
  simp [parseLoop, h]

theorem parseLoop_cons_nofields {fuel : Nat} {bytes : List Nat} {idl : Idl}
    {acc : IdlAccount} (rest : List IdlAccount)
    (h2 : getAccountStructFields idl acc.name = none) :
    parseLoop fuel bytes idl (acc :: rest) = parseLoop fuel bytes idl rest := by
  by_cases h1 : everyMatches (anchorDiscriminatorForAccount acc.name)
      (sliceBytes bytes 0 8) = true
  · simp [parseLoop, h1, h2]
  · simp [parseLoop, h1]

theorem parseLoop_cons_match {fuel : Nat} {bytes : List Nat} {idl : Idl}
    {acc : IdlAccount} {fs : List IdlField} (rest : List IdlAccount)
    (h1 : everyMatches (anchorDiscriminatorForAccount acc.name)
      (sliceBytes bytes 0 8) = true)
    (h2 : getAccountStructFields idl acc.name = some fs) :
    parseLoop fuel bytes idl (acc :: rest) =
      Except.map (fun p => some (acc.name, p.1))
        (decodeStruct fuel (bytes.drop 8) 0 fs idl) := by
  simp only [parseLoop, h1, if_true, h2]
  cases hd : decodeStruct fuel (bytes.drop 8) 0 fs idl with
  | error e => simp [Except.map]
  | ok p => cases p; simp [Except.map]

theorem parseLoop_none_iff (fuel : Nat) (bytes : List Nat) (idl : Idl) :
    ∀ accs : List IdlAccount,
      (parseLoop fuel bytes idl accs = .ok none ↔
        ∀ acc ∈ accs,
          everyMatches (anchorDiscriminatorForAccount acc.name)
            (sliceBytes bytes 0 8) = true →
          getAccountStructFields idl acc.name = none) := by
  intro accs
  induction accs with
  | nil => simp [parseLoop]
  | cons acc rest ih =>
    by_cases h1 : everyMatches (anchorDiscriminatorForAccount acc.name)
        (sliceBytes bytes 0 8) = true
    · cases h2 : getAccountStructFields idl acc.name with
      | none =>
        rw [parseLoop_cons_nofields rest h2, ih]
        simp [h1, h2]
      | some fs =>
        rw [parseLoop_cons_match rest h1 h2]
        constructor
        · intro hmap
          cases hd : decodeStruct fuel (bytes.drop 8) 0 fs idl with
          | error e => rw [hd] at hmap; simp [Except.map] at hmap
          | ok p => rw [hd] at hmap; simp [Except.map] at hmap
        · intro hall
          have := hall acc (by simp) h1
          rw [h2] at this
          cases this
    · rw [parseLoop_cons_nomatch rest (by simpa using h1), ih]
      constructor
      · intro hall a ha hm
        rcases List.mem_cons.mp ha with rfl | ha'
        · exact absurd hm h1
        · exact hall a ha' hm
      · intro hall a ha hm
        exact hall a (List.mem_cons_of_mem _ ha) hm

theorem parseLoop_skip_front {fuel : Nat} {bytes : List Nat} {idl : Idl} :
    ∀ (pre tail : List IdlAccount),
      (∀ a ∈ pre,
        everyMatches (anchorDiscriminatorForAccount a.name)
          (sliceBytes bytes 0 8) = true →
        getAccountStructFields idl a.name = none) →
      parseLoop fuel bytes idl (pre ++ tail) = parseLoop fuel bytes idl tail := by
  intro pre
  induction pre with
  | nil => intro tail _; rfl
  | cons a pre ih =>
    intro tail hall
    by_cases h1 : everyMatches (anchorDiscriminatorForAccount a.name)
        (sliceBytes bytes 0 8) = true
    · have h2 := hall a (by simp) h1
      rw [List.cons_append, parseLoop_cons_nofields _ h2]
      exact ih tail (fun x hx => hall x (List.mem_cons_of_mem _ hx))
    · rw [List.cons_append, parseLoop_cons_nomatch _ (by simpa using h1)]
      exact ih tail (fun x hx => hall x (List.mem_cons_of_mem _ hx))

/-- Claim C3 (confirmed): for every account type name, the discriminator
equals the first 8 bytes of the SHA-256 digest of the UTF-8 bytes of the
literal ASCII string `account:` concatenated with the UTF-8 bytes of the
name — no separator, no length prefix — and it is exactly 8 bytes long.
The function is a pure Lean function, so the same name always yields the
same bytes. -/
theorem claim_C3_discriminator :
    ∀ name : String,
      anchorDiscriminatorForAccount name =
        (sha256 (utf8Encode "account:" ++ utf8Encode name)).take 8 ∧
      (anchorDiscriminatorForAccount name).length = 8 := fun name =>
  ⟨anchorDiscriminatorForAccount_eq name, anchorDiscriminatorForAccount_length name⟩

/-- Claim C5 (code bug, evidence at the failing input): decoding the struct
`a : defined Missing, b : u8` against a schema with no `Missing` declaration
over the one-byte buffer `[42]` yields `null` for `a` WITHOUT advancing the
cursor, so the sibling `b` is decoded from offset 0 — the unresolved
field's wire bytes are not accounted for, and all following siblings are
desynchronized, contrary to the claim (and to the spec's normative
sentence, which the spec itself flags as a latent defect of the source). -/
theorem claim_C5_cursor_desync :
    decodeStruct 3 [42] 0 [⟨"a", .defined "Missing"⟩, ⟨"b", .u8⟩] ⟨[], []⟩ =
      .ok ([("a", Value.null), ("b", Value.num 42)], 1) := rfl

/-- Claim C4 counterexample: decoding a `string` from the 4-byte buffer
`[5,0,0,0]`, whose length prefix demands 5 bytes with none remaining,
SUCCEEDS with a truncated (empty) text value instead of failing with a
buffer underrun, refuting the claim's second half. -/
theorem claim_C4_cex :
    decodeType 1 [5, 0, 0, 0] 0 .string ⟨[], []⟩ = .ok (.text [], 9) := rfl

/-- Claim C4 (amended): every fixed-width read — the integer reads of all
widths, the bool byte, the option presence flag, the enum tag byte, and
the 4-byte length/count prefixes of string, bytes and vectors — fails with
the buffer-underrun error (`rangeError`) when it would pass the buffer's
end, in particular a `u32` from a 3-byte buffer; a field error aborts the
entire struct decode whether it occurs at the first field or after
successfully decoded fields, and a successful struct decode is never
partial (it binds every declared field); however a `string` whose 4-byte
length prefix demands more bytes than remain does NOT fail: it yields the
truncated slice with the cursor advanced past the end. -/
theorem claim_C4_amended :
    (∀ (fuel : Nat) (bytes : List Nat) (offset : Nat) (idl : Idl),
      bytes.length < offset + 1 →
      decodeType (fuel + 1) bytes offset .u8 idl = .error .rangeError ∧
      decodeType (fuel + 1) bytes offset .i8 idl = .error .rangeError ∧
      decodeType (fuel + 1) bytes offset .bool idl = .error .rangeError)
    ∧ (∀ (fuel : Nat) (bytes : List Nat) (offset : Nat) (idl : Idl)
        (t : IdlType) (variants : List IdlEnumVariant),
      bytes.length < offset + 1 →
      decodeType (fuel + 1) bytes offset (.option t) idl = .error .rangeError ∧
      decodeEnum (fuel + 1) bytes offset variants idl = .error .rangeError)
    ∧ (∀ (fuel : Nat) (bytes : List Nat) (offset : Nat) (idl : Idl),
      bytes.length < offset + 2 →
      decodeType (fuel + 1) bytes offset .u16 idl = .error .rangeError ∧
      decodeType (fuel + 1) bytes offset .i16 idl = .error .rangeError)
    ∧ (∀ (fuel : Nat) (bytes : List Nat) (offset : Nat) (idl : Idl)
        (t : IdlType),
      bytes.length < offset + 4 →
      decodeType (fuel + 1) bytes offset .u32 idl = .error .rangeError ∧
      decodeType (fuel + 1) bytes offset .i32 idl = .error .rangeError ∧
      decodeType (fuel + 1) bytes offset .string idl = .error .rangeError ∧
      decodeType (fuel + 1) bytes offset .bytes idl = .error .rangeError ∧
      decodeType (fuel + 1) bytes offset (.vec t) idl = .error .rangeError)
    ∧ (∀ (fuel : Nat) (bytes : List Nat) (offset : Nat) (idl : Idl),
      bytes.length < offset + 8 →
      decodeType (fuel + 1) bytes offset .u64 idl = .error .rangeError ∧
      decodeType (fuel + 1) bytes offset .i64 idl = .error .rangeError)
    ∧ (∀ idl : Idl, decodeType 1 [0, 0, 0] 0 .u32 idl = .error .rangeError)
    ∧ (∀ (fuel : Nat) (bytes : List Nat) (offset : Nat) (idl : Idl)
        (f : IdlField) (fs : List IdlField) (e : DecodeErr),
        decodeType fuel bytes offset f.type idl = .error e →
        decodeStruct (fuel + 1) bytes offset (f :: fs) idl = .error e)
    ∧ (∀ (fuel : Nat) (bytes : List Nat) (offset : Nat) (idl : Idl)
        (f : IdlField) (fs : List IdlField) (v : Value) (m : Nat)
        (e : DecodeErr),
        decodeType fuel bytes offset f.type idl = .ok (v, m) →
        decodeStruct fuel bytes m fs idl = .error e →
        decodeStruct (fuel + 1) bytes offset (f :: fs) idl = .error e)
    ∧ (∀ (fuel : Nat) (bytes : List Nat) (offset : Nat) (fs : List IdlField)
        (idl : Idl) (obj : List (String × Value)) (n : Nat),
        decodeStruct fuel bytes offset fs idl = .ok (obj, n) →
        obj.map Prod.fst = fs.map IdlField.name)
    ∧ (∀ (fuel : Nat) (bytes : List Nat) (offset : Nat) (idl : Idl)
        (len no : Nat),
        readUIntLE bytes offset 4 = .ok (len, no) →
        bytes.length < no + len →
        decodeType (fuel + 1) bytes offset .string idl =
          .ok (.text (sliceBytes bytes no (no + len)), no + len)) := by
  refine ⟨?_, ?_, ?_, ?_, ?_, ?_, ?_, ?_, decodeStruct_complete, ?_⟩
  · intro fuel bytes offset idl h
    have hc : ¬(offset + 1 ≤ bytes.length) := by omega
    refine ⟨?_, ?_, ?_⟩ <;>
      simp [decodeType, decodeReq, readUIntLE, hc, Bind.bind, Except.bind]
  · intro fuel bytes offset idl t variants h
    have hc : ¬(offset + 1 ≤ bytes.length) := by omega
    refine ⟨?_, ?_⟩ <;>
      simp [decodeType, decodeEnum, decodeReq, readUIntLE, hc,
        Bind.bind, Except.bind]
  · intro fuel bytes offset idl h
    have hc : ¬(offset + 2 ≤ bytes.length) := by omega
    refine ⟨?_, ?_⟩ <;>
      simp [decodeType, decodeReq, readUIntLE, hc, Bind.bind, Except.bind]
  · intro fuel bytes offset idl t h
    have hc : ¬(offset + 4 ≤ bytes.length) := by omega
    refine ⟨?_, ?_, ?_, ?_, ?_⟩ <;>
      simp [decodeType, decodeReq, readUIntLE, hc, Bind.bind, Except.bind]
  · intro fuel bytes offset idl h
    have hc : ¬(offset + 8 ≤ bytes.length) := by omega
    refine ⟨?_, ?_⟩ <;>
      simp [decodeType, decodeReq, readUIntLE, hc, Bind.bind, Except.bind]
  · intro idl
    rfl
  · intro fuel bytes offset idl f fs e h
    simp only [decodeType] at h
    simp [decodeStruct, decodeReq, h, Bind.bind, Except.bind]
  · intro fuel bytes offset idl f fs v m e h1 h2
    simp only [decodeType] at h1
    simp only [decodeStruct] at h2
    simp [decodeStruct, decodeReq, h1, h2, Bind.bind, Except.bind]
  · intro fuel bytes offset idl len no hr hlt
    simp [decodeType, decodeReq, hr, Bind.bind, Except.bind,
      Pure.pure, Except.pure]

/-- Witness for claim C4's amended theorem: a `u8` read on the empty
buffer, the `u32` read on the 3-byte buffer, error propagation past a
successfully decoded first field, completeness of a successful struct
decode, and the overrunning `string` on `[5,0,0,0]`. -/
theorem claim_C4_witness :
    (List.length ([] : List Nat) < 0 + 1 ∧
      decodeType 1 [] 0 .u8 ⟨[], []⟩ = .error .rangeError)
    ∧ decodeType 1 [0, 0, 0] 0 .u32 ⟨[], []⟩ = .error .rangeError
    ∧ (decodeType 2 [7] 0 .u8 ⟨[], []⟩ = .ok (.num 7, 1) ∧
      decodeStruct 2 [7] 1 [⟨"y", .u32⟩] ⟨[], []⟩ = .error .rangeError ∧
      decodeStruct 3 [7] 0 [⟨"x", .u8⟩, ⟨"y", .u32⟩] ⟨[], []⟩ =
        .error .rangeError)
    ∧ (decodeStruct 2 [7] 0 [⟨"x", .u8⟩] ⟨[], []⟩ = .ok ([("x", .num 7)], 1) ∧
      [("x", Value.num 7)].map Prod.fst = [(⟨"x", .u8⟩ : IdlField)].map IdlField.name)
    ∧ (readUIntLE [5, 0, 0, 0] 0 4 = .ok (5, 4) ∧
      decodeType 1 [5, 0, 0, 0] 0 .string ⟨[], []⟩ =
        .ok (.text (sliceBytes [5, 0, 0, 0] 4 (4 + 5)), 4 + 5)) :=
  ⟨⟨by decide, (claim_C4_amended.1 0 [] 0 ⟨[], []⟩ (by decide)).1⟩,
   claim_C4_amended.2.2.2.2.2.1 ⟨[], []⟩,
   ⟨rfl, rfl,
    claim_C4_amended.2.2.2.2.2.2.2.1 2 [7] 0 ⟨[], []⟩ ⟨"x", .u8⟩
      [⟨"y", .u32⟩] (.num 7) 1 .rangeError rfl rfl⟩,
   ⟨rfl,
    claim_C4_amended.2.2.2.2.2.2.2.2.1 2 [7] 0 [⟨"x", .u8⟩] ⟨[], []⟩
      [("x", .num 7)] 1 rfl⟩,
   ⟨rfl, claim_C4_amended.2.2.2.2.2.2.2.2.2 0 [5, 0, 0, 0] 0 ⟨[], []⟩ 5 4
      rfl (by decide)⟩⟩

/-- Claim C6 counterexample: a successful `string` decode on the 4-byte
buffer `[5,0,0,0]` returns cursor position 9, which exceeds the buffer
length, refuting the claim's `never exceeds the buffer length` part. -/
theorem claim_C6_cex :
    decodeType 1 [5, 0, 0, 0] 0 .string ⟨[], []⟩ = .ok (.text [], 9) ∧
      List.length [5, 0, 0, 0] < 9 := ⟨rfl, by decide⟩

/-- Claim C6 (amended): the cursor returned by every successful decode
request is monotonically non-decreasing, and composite decodes consume
exactly the bytes the type's grammar specifies — a vector of `u8` with
count 3 consumes exactly 4 + 3 = 7 bytes; however the cursor can exceed
the buffer length after a `string` whose length prefix overruns (see the
counterexample). -/
theorem claim_C6_amended :
    (∀ (fuel : Nat) (bytes : List Nat) (offset : Nat) (req : Req) (idl : Idl)
      (res : ReqRes req) (n : Nat),
      decodeReq fuel bytes offset req idl = .ok (res, n) → offset ≤ n)
    ∧ (∀ (a b c fuel : Nat) (idl : Idl),
      decodeType (fuel + 5) [3, 0, 0, 0, a, b, c] 0 (.vec .u8) idl =
        .ok (.arr [.num a, .num b, .num c], 7)) := by
  constructor
  · exact decodeReq_cursor_mono
  · intro a b c fuel idl
    simp [decodeType, decodeReq, readUIntLE, sliceBytes, leBytes,
      Bind.bind, Except.bind, Pure.pure, Except.pure]

/-- Witness for claim C6's amended theorem: the monotonicity part applied
to a concrete one-byte `u8` decode, and the vector part at count 3. -/
theorem claim_C6_witness :
    (0 : Nat) ≤ 1 ∧
      decodeType 5 [3, 0, 0, 0, 1, 2, 3] 0 (.vec .u8) ⟨[], []⟩ =
        .ok (.arr [.num 1, .num 2, .num 3], 7) :=
  ⟨claim_C6_amended.1 1 [7] 0 (.one .u8) ⟨[], []⟩ (.num 7) 1 rfl,
   claim_C6_amended.2 1 2 3 0 ⟨[], []⟩⟩

theorem parseAccountWithIdl_none_iff (fuel : Nat) (bytes : List Nat) (idl : Idl) :
    parseAccountWithIdl fuel bytes idl = .ok none ↔
      ∀ acc ∈ idl.accounts,
        everyMatches (anchorDiscriminatorForAccount acc.name)
          (sliceBytes bytes 0 8) = true →
        getAccountStructFields idl acc.name = none := by
  unfold parseAccountWithIdl
  by_cases he : idl.accounts.isEmpty
  · have : idl.accounts = [] := by
      cases h : idl.accounts with
      | nil => rfl
      | cons a rest => rw [h] at he; cases he
    simp [he, this]
  · simp only [he, if_false, Bool.false_eq_true]
    exact parseLoop_none_iff fuel bytes idl idl.accounts

/-- Claim C1 counterexample: a schema declaring the account type `A` with
no locatable field list, against a buffer that IS `A`'s discriminator:
the discriminator of the declared type matches the first 8 bytes, yet the
resolver returns `NoMatch` (`.ok none`) instead of decoding against `A`'s
field list, refuting `if no declared type's discriminator matches it
returns NoMatch` together with `on the first byte-exact match it …
decodes`. -/
theorem claim_C1_cex :
    parseAccountWithIdl 1 (anchorDiscriminatorForAccount "A")
        ⟨[⟨"A", none⟩], []⟩ = .ok none
    ∧ everyMatches (anchorDiscriminatorForAccount "A")
        (sliceBytes (anchorDiscriminatorForAccount "A") 0 8) = true
    ∧ (⟨[⟨"A", none⟩], []⟩ : Idl).accounts.map (fun a => a.name) = ["A"] := by
  refine ⟨rfl, ?_, rfl⟩
  have h8 := anchorDiscriminatorForAccount_length "A"
  unfold sliceBytes
  rw [List.drop_zero, List.take_of_length_le (le_of_eq h8)]
  exact everyMatches_self _

/-- Claim C1 (amended): in auto-detect mode the resolver scans the declared
account types in schema order; on the first discriminator match FOR WHICH A
FIELD LIST CAN BE LOCATED it strips 8 bytes and decodes the remainder
against that field list, and it returns `NoMatch` (a normal `.ok none`,
not an error) exactly when no declared type both matches the first 8 bytes
and has a locatable field list. -/
theorem claim_C1_amended :
    (∀ (fuel : Nat) (bytes : List Nat) (idl : Idl) (pre rest : List IdlAccount)
        (acc : IdlAccount) (fs : List IdlField),
      idl.accounts = pre ++ acc :: rest →
      (∀ a ∈ pre,
        everyMatches (anchorDiscriminatorForAccount a.name)
          (sliceBytes bytes 0 8) = true →
        getAccountStructFields idl a.name = none) →
      everyMatches (anchorDiscriminatorForAccount acc.name)
        (sliceBytes bytes 0 8) = true →
      getAccountStructFields idl acc.name = some fs →
      parseAccountWithIdl fuel bytes idl =
        Except.map (fun p => some (acc.name, p.1))
          (decodeStruct fuel (bytes.drop 8) 0 fs idl))
    ∧ (∀ (fuel : Nat) (bytes : List Nat) (idl : Idl),
      parseAccountWithIdl fuel bytes idl = .ok none ↔
        ∀ acc ∈ idl.accounts,
          everyMatches (anchorDiscriminatorForAccount acc.name)
            (sliceBytes bytes 0 8) = true →
          getAccountStructFields idl acc.name = none) := by
  constructor
  · intro fuel bytes idl pre rest acc fs hacc hpre hm hf
    unfold parseAccountWithIdl
    rw [hacc]
    have hne : (pre ++ acc :: rest).isEmpty = false := by
      cases pre <;> simp
    rw [hne]
    simp only [Bool.false_eq_true, if_false]
    rw [parseLoop_skip_front pre _ hpre, parseLoop_cons_match rest hm hf]
  · exact parseAccountWithIdl_none_iff

/-- Witness for claim C1's amended theorem: a one-account schema whose
discriminator heads the buffer, decoded against its inline struct. -/
theorem claim_C1_witness :
    everyMatches (anchorDiscriminatorForAccount "A")
        (sliceBytes (anchorDiscriminatorForAccount "A" ++ [5]) 0 8) = true ∧
    getAccountStructFields ⟨[⟨"A", some (.struct [⟨"x", .u8⟩])⟩], []⟩ "A" =
        some [⟨"x", .u8⟩] ∧
    parseAccountWithIdl 2 (anchorDiscriminatorForAccount "A" ++ [5])
        ⟨[⟨"A", some (.struct [⟨"x", .u8⟩])⟩], []⟩ =
      Except.map (fun p => some ("A", p.1))
        (decodeStruct 2 ((anchorDiscriminatorForAccount "A" ++ [5]).drop 8) 0
          [⟨"x", .u8⟩] ⟨[⟨"A", some (.struct [⟨"x", .u8⟩])⟩], []⟩) :=
  ⟨by decide, rfl,
    claim_C1_amended.1 2 (anchorDiscriminatorForAccount "A" ++ [5])
      ⟨[⟨"A", some (.struct [⟨"x", .u8⟩])⟩], []⟩ [] []
      ⟨"A", some (.struct [⟨"x", .u8⟩])⟩ [⟨"x", .u8⟩] rfl
      (by intro a ha; cases ha) (by decide) rfl⟩

/-- Claim C10 (confirmed): in auto-detect mode, a candidate whose
discriminator matches but whose struct field list cannot be located
(neither inline, via its defined reference, nor in `types`) is skipped and
the scan continues with the later account types (`parseLoop` is the loop
of `parseAccountWithIdl`); the resolver answers `NoMatch` exactly when no
candidate both matches and has a locatable field list. -/
theorem claim_C10_skip :
    (∀ (fuel : Nat) (bytes : List Nat) (idl : Idl) (acc : IdlAccount)
        (rest : List IdlAccount),
      everyMatches (anchorDiscriminatorForAccount acc.name)
        (sliceBytes bytes 0 8) = true →
      getAccountStructFields idl acc.name = none →
      parseLoop fuel bytes idl (acc :: rest) = parseLoop fuel bytes idl rest)
    ∧ (∀ (fuel : Nat) (bytes : List Nat) (idl : Idl),
      parseAccountWithIdl fuel bytes idl = .ok none ↔
        ∀ acc ∈ idl.accounts,
          everyMatches (anchorDiscriminatorForAccount acc.name)
            (sliceBytes bytes 0 8) = true →
          getAccountStructFields idl acc.name = none) :=
  ⟨fun _fuel _bytes _idl _acc rest _ h2 => parseLoop_cons_nofields rest h2,
   parseAccountWithIdl_none_iff⟩

/-- Witness for claim C10: the skip equation applied to a matching
account entry with no locatable fields. -/
theorem claim_C10_witness :
    everyMatches (anchorDiscriminatorForAccount "A")
        (sliceBytes (anchorDiscriminatorForAccount "A") 0 8) = true ∧
    getAccountStructFields ⟨[⟨"A", none⟩], []⟩ "A" = none ∧
    parseLoop 1 (anchorDiscriminatorForAccount "A") ⟨[⟨"A", none⟩], []⟩
        [⟨"A", none⟩] =
      parseLoop 1 (anchorDiscriminatorForAccount "A") ⟨[⟨"A", none⟩], []⟩ [] :=
  ⟨by decide, rfl,
   claim_C10_skip.1 1 (anchorDiscriminatorForAccount "A") ⟨[⟨"A", none⟩], []⟩
     ⟨"A", none⟩ [] (by decide) rfl⟩

/-- Claim C2 (confirmed): in explicit mode, when the named account type
exists in the schema (its entry is found and its field list is locatable,
i.e. it is an account type entry in the spec's sense), the result is the
decode of the buffer from offset 8 when the buffer holds at least 8 bytes
and the type's discriminator matches them, and from offset 0 otherwise
(mismatch, or a buffer shorter than 8 bytes — in which case no comparison
is performed and the offset is 0); the explicit path never returns
`NoMatch` because of a tag mismatch. -/
theorem claim_C2_explicit :
    ∀ (fuel : Nat) (bytes : List Nat) (idl : Idl) (sel : String)
      (acc : IdlAccount) (fs : List IdlField),
      sel ≠ "" →
      idl.accounts.find? (fun a => a.name == sel) = some acc →
      getAccountStructFields idl acc.name = some fs →
      (parseAccountAutoOrSelected fuel bytes idl (some sel) =
        Except.map (fun p => some (acc.name, p.1))
          (decodeStruct fuel
            (bytes.drop
              (if 8 ≤ bytes.length then
                if everyMatches (anchorDiscriminatorForAccount acc.name) bytes
                then 8 else 0
               else 0)) 0 fs idl))
      ∧ (bytes.length < 8 →
          parseAccountAutoOrSelected fuel bytes idl (some sel) =
            Except.map (fun p => some (acc.name, p.1))
              (decodeStruct fuel bytes 0 fs idl))
      ∧ parseAccountAutoOrSelected fuel bytes idl (some sel) ≠ .ok none := by
  intro fuel bytes idl sel acc fs hne hfind hfs
  have hsel : (sel == "") = false := beq_eq_false_iff_ne.mpr hne
  have hmain : parseAccountAutoOrSelected fuel bytes idl (some sel) =
      Except.map (fun p => some (acc.name, p.1))
        (decodeStruct fuel
          (bytes.drop
            (if 8 ≤ bytes.length then
              if everyMatches (anchorDiscriminatorForAccount acc.name) bytes
              then 8 else 0
             else 0)) 0 fs idl) := by
    unfold parseAccountAutoOrSelected
    dsimp only
    simp only [hsel, Bool.false_eq_true, if_false, hfind, hfs]
    cases hd : decodeStruct fuel
        (bytes.drop
          (if 8 ≤ bytes.length then
            if everyMatches (anchorDiscriminatorForAccount acc.name) bytes
            then 8 else 0
           else 0)) 0 fs idl with
    | error e => simp [hd, Except.map]
    | ok p => cases p; simp [hd, Except.map]
  refine ⟨hmain, ?_, ?_⟩
  · intro hlt
    rw [hmain]
    have : ¬(8 ≤ bytes.length) := by omega
    simp [this]
  · rw [hmain]
    cases hd : decodeStruct fuel
        (bytes.drop
          (if 8 ≤ bytes.length then
            if everyMatches (anchorDiscriminatorForAccount acc.name) bytes
            then 8 else 0
           else 0)) 0 fs idl with
    | error e => simp [Except.map]
    | ok p => cases p; simp [Except.map]

/-- Witness for claim C2: explicit selection with a 4-byte buffer
(shorter than the discriminator) decodes from offset 0 — the spec's
Scenario C. -/
theorem claim_C2_witness :
    ("A" : String) ≠ "" ∧
    (⟨[⟨"A", some (.struct [⟨"x", .u8⟩])⟩], []⟩ : Idl).accounts.find?
        (fun a => a.name == "A") = some ⟨"A", some (.struct [⟨"x", .u8⟩])⟩ ∧
    List.length [9, 8, 7, 6] < 8 ∧
    parseAccountAutoOrSelected 2 [9, 8, 7, 6]
        ⟨[⟨"A", some (.struct [⟨"x", .u8⟩])⟩], []⟩ (some "A") =
      Except.map (fun p => some ("A", p.1))
        (decodeStruct 2 [9, 8, 7, 6] 0 [⟨"x", .u8⟩]
          ⟨[⟨"A", some (.struct [⟨"x", .u8⟩])⟩], []⟩) :=
  ⟨by decide, rfl, by decide,
   (claim_C2_explicit 2 [9, 8, 7, 6] ⟨[⟨"A", some (.struct [⟨"x", .u8⟩])⟩], []⟩
     "A" ⟨"A", some (.struct [⟨"x", .u8⟩])⟩ [⟨"x", .u8⟩] (by decide) rfl
     rfl).2.1 (by decide)⟩

/-- Claim C7 (confirmed): enum decoding reads a 1-byte tag and selects the
variant at that 0-based index; a tag at or beyond the number of declared
variants yields the unknown-variant value carrying the raw tag and
consumes nothing beyond the tag byte; otherwise the variant's payload is
decoded per its shape — no fields: no bytes; struct-shaped: named fields;
tuple-shaped: positional values — into a tagged value with the tag, the
variant name and the payload. -/
theorem claim_C7_enum :
    ∀ (fuel : Nat) (bytes : List Nat) (offset : Nat)
      (variants : List IdlEnumVariant) (idl : Idl) (tag no : Nat),
      readUIntLE bytes offset 1 = .ok (tag, no) →
      ((variants.length ≤ tag →
        decodeEnum (fuel + 1) bytes offset variants idl =
          .ok (.tagged tag "Unknown" none, no))
      ∧ (∀ v, variants[tag]? = some v → v.fields = none →
          decodeEnum (fuel + 1) bytes offset variants idl =
            .ok (.tagged tag v.name none, no))
      ∧ (∀ v fs, variants[tag]? = some v → v.fields = some (.kindStruct fs) →
          decodeEnum (fuel + 1) bytes offset variants idl =
            Except.map (fun p => (.tagged tag v.name (some (.obj p.1)), p.2))
              (decodeStruct fuel bytes no fs idl))
      ∧ (∀ v ts, variants[tag]? = some v → v.fields = some (.kindTuple ts) →
          decodeEnum (fuel + 1) bytes offset variants idl =
            Except.map (fun p => (.tagged tag v.name (some (.arr p.1)), p.2))
              (decodeReq fuel bytes no (.tuple ts) idl))) := by
  intro fuel bytes offset variants idl tag no hr
  refine ⟨?_, ?_, ?_, ?_⟩
  · intro hlen
    have hnone : variants[tag]? = none := List.getElem?_eq_none hlen
    simp [decodeEnum, decodeReq, hr, hnone, Bind.bind, Except.bind,
      Pure.pure, Except.pure]
  · intro v hv hf
    simp [decodeEnum, decodeReq, hr, hv, hf, Bind.bind, Except.bind,
      Pure.pure, Except.pure]
  · intro v fs hv hf
    simp only [decodeEnum, decodeReq, hr, hv, hf, Bind.bind, Except.bind]
    cases hd : decodeReq fuel bytes no (.fields fs) idl with
    | error e => simp [decodeStruct, hd, Except.bind, Except.map]
    | ok p =>
      cases p
      simp [decodeStruct, hd, Except.bind, Except.map, Pure.pure, Except.pure]
  · intro v ts hv hf
    simp only [decodeEnum, decodeReq, hr, hv, hf, Bind.bind, Except.bind]
    cases hd : decodeReq fuel bytes no (.tuple ts) idl with
    | error e => simp [hd, Except.bind, Except.map]
    | ok p =>
      cases p
      simp [hd, Except.bind, Except.map, Pure.pure, Except.pure]

/-- Witness for claim C7: the spec's Scenario B — variants Idle (unit) and
Active (struct with `amount : u32`), payload `[1, 42,0,0,0]`. -/
theorem claim_C7_witness :
    readUIntLE [1, 42, 0, 0, 0] 0 1 = .ok (1, 1) ∧
    ([⟨"Idle", none⟩, ⟨"Active", some (.kindStruct [⟨"amount", .u32⟩])⟩] :
        List IdlEnumVariant)[1]? =
      some ⟨"Active", some (.kindStruct [⟨"amount", .u32⟩])⟩ ∧
    decodeEnum 2 [1, 42, 0, 0, 0] 0
        [⟨"Idle", none⟩, ⟨"Active", some (.kindStruct [⟨"amount", .u32⟩])⟩]
        ⟨[], []⟩ =
      Except.map (fun p => (.tagged 1 "Active" (some (.obj p.1)), p.2))
        (decodeStruct 1 [1, 42, 0, 0, 0] 1 [⟨"amount", .u32⟩] ⟨[], []⟩) :=
  ⟨rfl, rfl,
   (claim_C7_enum 1 [1, 42, 0, 0, 0] 0
     [⟨"Idle", none⟩, ⟨"Active", some (.kindStruct [⟨"amount", .u32⟩])⟩]
     ⟨[], []⟩ 1 1 rfl).2.2.1
     ⟨"Active", some (.kindStruct [⟨"amount", .u32⟩])⟩ [⟨"amount", .u32⟩]
     rfl rfl⟩

/-- Claim C8 (confirmed): `u64` and `i64` fields read 8 little-endian
bytes and are surfaced as the exact decimal string of the read value (the
embedding's `Nat` / `Int` rendering is exact at every 64-bit magnitude);
and the spec's Scenario A: the account type `Counter` with one `u64`
field decodes `discriminator(Counter) ++ le64(7)` to the record with
`count` bound to the string `7`. -/
theorem claim_C8_u64 :
    (∀ (fuel : Nat) (bytes : List Nat) (offset : Nat) (idl : Idl) (v n : Nat),
      readUIntLE bytes offset 8 = .ok (v, n) →
      decodeType (fuel + 1) bytes offset .u64 idl = .ok (.str (toString v), n))
    ∧ (∀ (fuel : Nat) (bytes : List Nat) (offset : Nat) (idl : Idl) (v n : Nat),
      readUIntLE bytes offset 8 = .ok (v, n) →
      decodeType (fuel + 1) bytes offset .i64 idl =
        .ok (.str (toString (toSigned 8 v)), n))
    ∧ (parseAccountWithIdl 2
        (anchorDiscriminatorForAccount "Counter" ++ [7, 0, 0, 0, 0, 0, 0, 0])
        ⟨[⟨"Counter", some (.struct [⟨"count", .u64⟩])⟩], []⟩ =
      .ok (some ("Counter", [("count", Value.str "7")]))) := by
  refine ⟨?_, ?_, ?_⟩
  · intro fuel bytes offset idl v n hr
    simp [decodeType, decodeReq, hr, Bind.bind, Except.bind,
      Pure.pure, Except.pure]
  · intro fuel bytes offset idl v n hr
    simp [decodeType, decodeReq, hr, Bind.bind, Except.bind,
      Pure.pure, Except.pure]
  · rfl

/-- Witness for claim C8: the `u64` part applied at the 8-byte buffer
encoding 7. -/
theorem claim_C8_witness :
    readUIntLE [7, 0, 0, 0, 0, 0, 0, 0] 0 8 = .ok (7, 8) ∧
    decodeType 1 [7, 0, 0, 0, 0, 0, 0, 0] 0 .u64 ⟨[], []⟩ =
      .ok (.str (toString (7 : Nat)), 8) :=
  ⟨rfl, claim_C8_u64.1 0 [7, 0, 0, 0, 0, 0, 0, 0] 0 ⟨[], []⟩ 7 8 rfl⟩

/-- Claim C9 (confirmed): when an enum variant's `fields` is a flat array,
the decoder produces a named-field mapping exactly when the array is
non-empty and its first element is a plain named-field object (the
source's check that the first element is an object carrying none of the
keys `vec`, `option`, `array`, `defined`, which in the embedding holds
exactly for a `named` element); in every other case — including the empty
array — it decodes a positional tuple, and the empty array yields the
empty positional list as the variant's value. -/
theorem claim_C9_flat_shape :
    ∀ (fuel : Nat) (bytes : List Nat) (offset : Nat)
      (variants : List IdlEnumVariant) (idl : Idl) (tag no : Nat)
      (v : IdlEnumVariant) (elems : List FlatElem),
      readUIntLE bytes offset 1 = .ok (tag, no) →
      variants[tag]? = some v →
      v.fields = some (.flat elems) →
      ((flatLooksNamed elems = true →
        decodeEnum (fuel + 1) bytes offset variants idl =
          Except.map (fun p => (.tagged tag v.name (some (.obj p.1)), p.2))
            (decodeReq fuel bytes no (.flatNamed elems) idl))
      ∧ (flatLooksNamed elems = false →
        decodeEnum (fuel + 1) bytes offset variants idl =
          Except.map (fun p => (.tagged tag v.name (some (.arr p.1)), p.2))
            (decodeReq fuel bytes no (.flatTuple elems) idl))
      ∧ (flatLooksNamed elems = true ↔
          ∃ nm t rest, elems = .named nm t :: rest)
      ∧ (elems = [] →
        decodeEnum (fuel + 2) bytes offset variants idl =
          .ok (.tagged tag v.name (some (.arr [])), no))) := by
  intro fuel bytes offset variants idl tag no v elems hr hv hf
  refine ⟨?_, ?_, ?_, ?_⟩
  · intro hn
    simp only [decodeEnum, decodeReq, hr, hv, hf, hn, if_true,
      Bind.bind, Except.bind]
    cases hd : decodeReq fuel bytes no (.flatNamed elems) idl with
    | error e => simp [hd, Except.bind, Except.map]
    | ok p =>
      cases p
      simp [hd, Except.bind, Except.map, Pure.pure, Except.pure]
  · intro hn
    simp only [decodeEnum, decodeReq, hr, hv, hf, hn, Bool.false_eq_true,
      if_false, Bind.bind, Except.bind]
    cases hd : decodeReq fuel bytes no (.flatTuple elems) idl with
    | error e => simp [hd, Except.bind, Except.map]
    | ok p =>
      cases p
      simp [hd, Except.bind, Except.map, Pure.pure, Except.pure]
  · cases elems with
    | nil =>
      simp only [flatLooksNamed]
      constructor
      · intro h; cases h
      · rintro ⟨nm, t, rest, h⟩; cases h
    | cons e rest =>
      cases e with
      | named nm t =>
        simp only [flatLooksNamed, flatElemIsNamedObject]
        exact ⟨fun _ => ⟨nm, t, rest, rfl⟩, fun _ => trivial⟩
      | bare t =>
        constructor
        · intro h
          cases t <;> simp [flatLooksNamed, flatElemIsNamedObject] at h
        · rintro ⟨nm, t', rest', h⟩; cases h
  · rintro rfl
    simp [decodeEnum, decodeReq, hr, hv, hf, flatLooksNamed,
      Bind.bind, Except.bind, Pure.pure, Except.pure]

/-- Witness for claim C9: a flat named-field payload takes the named
branch, and an empty flat array yields an empty positional value. -/
theorem claim_C9_witness :
    readUIntLE [0, 9] 0 1 = .ok (0, 1) ∧
    ([⟨"V", some (.flat [.named "x" .u8])⟩] : List IdlEnumVariant)[0]? =
      some ⟨"V", some (.flat [.named "x" .u8])⟩ ∧
    flatLooksNamed [.named "x" .u8] = true ∧
    decodeEnum 2 [0, 9] 0 [⟨"V", some (.flat [.named "x" .u8])⟩] ⟨[], []⟩ =
      Except.map (fun p => (.tagged 0 "V" (some (.obj p.1)), p.2))
        (decodeReq 1 [0, 9] 1 (.flatNamed [.named "x" .u8]) ⟨[], []⟩) ∧
    decodeEnum 2 [0] 0 [⟨"E", some (.flat [])⟩] ⟨[], []⟩ =
      .ok (.tagged 0 "E" (some (.arr [])), 1) :=
  ⟨rfl, rfl, rfl,
   (claim_C9_flat_shape 1 [0, 9] 0 [⟨"V", some (.flat [.named "x" .u8])⟩]
     ⟨[], []⟩ 0 1 ⟨"V", some (.flat [.named "x" .u8])⟩ [.named "x" .u8]
     rfl rfl rfl).1 rfl,
   (claim_C9_flat_shape 0 [0] 0 [⟨"E", some (.flat [])⟩] ⟨[], []⟩ 0 1
     ⟨"E", some (.flat [])⟩ [] rfl rfl rfl).2.2.2 rfl⟩

end DevTools
